import Mathlib

/-!
Verification of the quota-aware endpoint scheduler in
`src/lambda_function.py` (smart-bedrock-api-load-balancer).

The DynamoDB table `BedrockQuotaTracking` holds one record per region with
fields `region` (key), `total_quota`, `used_quota`, `last_reset`,
`request_count`.  We embed the table as a list of records; `last_reset`
may be absent in a stored item (`endpoint.get('last_reset', 0)`), so it is
an `Option Nat`.  Timestamps are epoch seconds (`int(time.time())`),
modelled as `Nat`; quota counters are DynamoDB numbers, modelled as `Int`.
-/

structure EndpointRecord where
  region : String
  total_quota : Int
  used_quota : Int
  last_reset : Option Nat
  request_count : Int
deriving Repr, DecidableEq

abbrev Store := List EndpointRecord

/-- `endpoint.get('last_reset', 0)`: the stored field with default 0. -/
def lastResetD (e : EndpointRecord) : Nat := e.last_reset.getD 0

/-- The window check inlined in `reset_if_needed`:
`current_time // 60 > last_reset // 60` (Python floor division on
non-negative epoch seconds). -/
def shouldReset (now lastReset : Nat) : Bool := now / 60 > lastReset / 60

/-- Remaining headroom `total_quota - used_quota`, the key used by
`select_best_endpoint`. -/
def headroom (e : EndpointRecord) : Int := e.total_quota - e.used_quota

/-- `table.update_item` with `SET used_quota = :zero, last_reset = :now`
keyed on `region`: overwrites the record whose key matches,
unconditionally (the source uses no ConditionExpression). -/
def updateItemReset (s : Store) (region : String) (now : Nat) : Store :=
  s.map fun r =>
    if r.region = region then { r with used_quota := 0, last_reset := some now } else r

/-- `reset_if_needed(endpoint)`: reads the wall clock (`now` passed
explicitly), checks the window, and on a hit overwrites the store record
and zeroes the in-memory copy's `used_quota` (the in-memory `last_reset`
is not touched by the source).  Returns (new store, in-memory copy). -/
def reset_if_needed (now : Nat) (s : Store) (e : EndpointRecord) :
    Store × EndpointRecord :=
  if shouldReset now (lastResetD e) then
    (updateItemReset s e.region now, { e with used_quota := 0 })
  else
    (s, e)

/-- `max(endpoints, key=lambda x: x['total_quota'] - x['used_quota'])`.
Python's `max` raises on an empty sequence (modelled as `none`) and on
ties keeps the earliest element: a later element replaces the current
maximum only when its key is strictly greater. -/
def select_best_endpoint : List EndpointRecord → Option EndpointRecord
  | [] => none
  | e :: es =>
    some (es.foldl (fun best x => if headroom best < headroom x then x else best) e)

/-- `update_quota(region, increment=1)`: `SET used_quota = used_quota + :inc,
request_count = request_count + :one` keyed on `region`. -/
def update_quota (s : Store) (region : String) (inc : Int) : Store :=
  s.map fun r =>
    if r.region = region then
      { r with used_quota := r.used_quota + inc, request_count := r.request_count + 1 }
    else r

/-- The `for endpoint in endpoints: reset_if_needed(endpoint)` loop of
`lambda_handler`: threads the store through each call and collects the
mutated in-memory copies. -/
def resetLoop (now : Nat) : Store → List EndpointRecord → Store × List EndpointRecord
  | s, [] => (s, [])
  | s, e :: es =>
    let p := reset_if_needed now s e
    let q := resetLoop now p.1 es
    (q.1, p.2 :: q.2)

structure Response where
  statusCode : Nat
  body : String
deriving Repr, DecidableEq

/-- Outcome of parsing the inbound event in `lambda_handler`:
`json.loads(event["body"])` may raise (ValueError/KeyError), else
`body.get("prompt")` yields an optional string. -/
inductive ParsedEvent where
  | invalid
  | withPrompt (prompt : Option String)
deriving Repr, DecidableEq

/-- Python truthiness of the prompt: `if not prompt` fires on a missing
key (`None`) and on the empty string. -/
def hasPrompt : ParsedEvent → Bool
  | .invalid => false
  | .withPrompt p => decide (p.getD "" ≠ "")

/-- `lambda_handler`, with the I/O boundary made explicit: `now` is the
wall clock, `downstreamOk` is whether `bedrock_client.invoke_model`
succeeds, `s` is the DynamoDB table state.  `get_available_endpoints()`
scans the table, so the endpoint snapshot is the store list itself.  The
200 body wraps the region together with the opaque model response; we
keep the region. -/
def lambda_handler (ev : ParsedEvent) (now : Nat) (downstreamOk : Bool)
    (s : Store) : Response × Store :=
  match ev with
  | .invalid => (⟨400, "Invalid input"⟩, s)
  | .withPrompt p =>
    if p.getD "" = "" then (⟨400, "Prompt is required"⟩, s)
    else if s.isEmpty then (⟨500, "No endpoints available"⟩, s)
    else
      let rl := resetLoop now s s
      match select_best_endpoint rl.2 with
      | none => (⟨500, "No endpoints available"⟩, rl.1)
      | some chosen =>
        if downstreamOk then
          (⟨200, chosen.region⟩, update_quota rl.1 chosen.region 1)
        else
          (⟨500, "Bedrock invocation failed"⟩, rl.1)

/-! ## Helper lemmas -/

lemma lt_of_shouldReset {now l : Nat} (h : shouldReset now l = true) : l < now := by
  by_contra hle
  push_neg at hle
  have hd : now / 60 ≤ l / 60 := Nat.div_le_div_right hle
  simp only [shouldReset, decide_eq_true_eq] at h
  omega

lemma shouldReset_of_none (now : Nat) (h : 60 ≤ now) : shouldReset now 0 = true := by
  simp only [shouldReset, decide_eq_true_eq, Nat.zero_div]
  exact Nat.div_pos h (by norm_num)

/-! ## Claims about the reset policy -/

/-- C2, counterexample: `now = 0` and `lastReset = 60` fall in different
60-second windows (windows 0 and 1), yet `shouldReset` returns `false`;
so "true iff the windows differ" fails when `now` lies in an earlier
window. -/
theorem shouldReset_window_iff_cex :
    ¬ (shouldReset 0 60 = true ↔ (0 : Nat) / 60 ≠ 60 / 60) := by decide

/-- C2, amended: `shouldReset now lastReset` is true iff `now` and
`lastReset` fall in different 60-second windows AND `lastReset < now`
(equivalently, `now` is in a strictly later window); in particular it is
false when the windows are equal, and also false whenever `now` is in an
earlier window than `lastReset`. -/
theorem shouldReset_iff_later_window (now lastReset : Nat) :
    shouldReset now lastReset = true ↔
      (now / 60 ≠ lastReset / 60 ∧ lastReset < now) := by
  constructor
  · intro h
    have hlt := lt_of_shouldReset h
    simp only [shouldReset, decide_eq_true_eq] at h
    exact ⟨by omega, hlt⟩
  · rintro ⟨hne, hlt⟩
    have hd : lastReset / 60 ≤ now / 60 := Nat.div_le_div_right (Nat.le_of_lt hlt)
    simp only [shouldReset, decide_eq_true_eq]
    omega

/-- C7: with no endpoint records the operation fails: `select` on the
empty sequence yields no endpoint, and the handler (with a valid prompt)
returns the "No endpoints available" failure without touching state. -/
theorem empty_pool_fails (ev : ParsedEvent) (now : Nat) (ok : Bool)
    (hp : hasPrompt ev = true) :
    select_best_endpoint [] = none ∧
      lambda_handler ev now ok [] = (⟨500, "No endpoints available"⟩, []) := by
  refine ⟨rfl, ?_⟩
  cases ev with
  | invalid => simp [hasPrompt] at hp
  | withPrompt p =>
    simp only [hasPrompt, decide_eq_true_eq] at hp
    simp [lambda_handler, hp]

theorem empty_pool_fails_witness :
    select_best_endpoint [] = none ∧
      lambda_handler (.withPrompt (some "hi")) 0 true [] =
        (⟨500, "No endpoints available"⟩, []) :=
  empty_pool_fails (.withPrompt (some "hi")) 0 true (by decide)

/-- C10: an event whose body fails to parse, or whose prompt is missing
or empty, is rejected with status 400 and the quota store is untouched. -/
theorem bad_input_no_effect (ev : ParsedEvent) (now : Nat) (ok : Bool)
    (s : Store) (hp : hasPrompt ev = false) :
    (lambda_handler ev now ok s).1.statusCode = 400 ∧
      (lambda_handler ev now ok s).2 = s := by
  cases ev with
  | invalid => exact ⟨rfl, rfl⟩
  | withPrompt p =>
    simp only [hasPrompt, decide_eq_true_eq, Decidable.not_not,
      decide_eq_false_iff_not, not_not] at hp
    simp [lambda_handler, hp]

theorem bad_input_no_effect_witness :
    (lambda_handler .invalid 30 true
        [⟨"us-east-1", 10, 3, some 30, 5⟩]).1.statusCode = 400 ∧
      (lambda_handler .invalid 30 true
        [⟨"us-east-1", 10, 3, some 30, 5⟩]).2 =
        [⟨"us-east-1", 10, 3, some 30, 5⟩] :=
  bad_input_no_effect .invalid 30 true [⟨"us-east-1", 10, 3, some 30, 5⟩] (by decide)

/-- C9: a record lacking the `last_reset` attribute is read back with
default 0, so once `now` has passed the first full window (`60 ≤ now`)
the check fires: the in-memory copy's `used_quota` becomes 0 and the
store record of that region is overwritten with `used_quota = 0`,
`last_reset = now`. -/
theorem missing_last_reset_resets (now : Nat) (s : Store) (e : EndpointRecord)
    (h0 : e.last_reset = none) (h60 : 60 ≤ now) :
    (reset_if_needed now s e).2.used_quota = 0 ∧
    ∀ r ∈ s, r.region = e.region →
      { r with used_quota := 0, last_reset := some now } ∈ (reset_if_needed now s e).1 := by
  have hsr : shouldReset now (lastResetD e) = true := by
    rw [lastResetD, h0]
    exact shouldReset_of_none now h60
  rw [reset_if_needed, if_pos hsr]
  refine ⟨rfl, ?_⟩
  intro r hr hreg
  rw [updateItemReset, List.mem_map]
  exact ⟨r, hr, by rw [if_pos hreg]⟩

theorem missing_last_reset_resets_witness :
    (reset_if_needed 60 [⟨"us-east-1", 10, 3, none, 5⟩]
        ⟨"us-east-1", 10, 3, none, 5⟩).2.used_quota = 0 ∧
    ∀ r ∈ [(⟨"us-east-1", 10, 3, none, 5⟩ : EndpointRecord)],
      r.region = EndpointRecord.region ⟨"us-east-1", 10, 3, none, 5⟩ →
        { r with used_quota := 0, last_reset := some 60 } ∈
          (reset_if_needed 60 [⟨"us-east-1", 10, 3, none, 5⟩]
            ⟨"us-east-1", 10, 3, none, 5⟩).1 :=
  missing_last_reset_resets 60 [⟨"us-east-1", 10, 3, none, 5⟩]
    ⟨"us-east-1", 10, 3, none, 5⟩ rfl (by decide)

/-! ## Claims about the store reset write -/

/-- C4, counterexample: the caller's copy was read with `last_reset = 0`
while the store's current record meanwhile holds `last_reset = 100`
(e.g. another caller already reset); at `now = 60` the code still
overwrites the record (`used_quota` zeroed, `last_reset` moved to 60)
instead of the claimed no-op, even moving `last_reset` backwards. -/
theorem reset_blind_overwrite_cex :
    (reset_if_needed 60 [⟨"us-east-1", 10, 5, some 100, 7⟩]
        ⟨"us-east-1", 10, 5, some 0, 7⟩).1 =
      [⟨"us-east-1", 10, 0, some 60, 7⟩] ∧
    (reset_if_needed 60 [⟨"us-east-1", 10, 5, some 100, 7⟩]
        ⟨"us-east-1", 10, 5, some 0, 7⟩).1 ≠
      [⟨"us-east-1", 10, 5, some 100, 7⟩] := by decide

/-- C4, amended: the reset write is a blind overwrite, not a conditional
update: whenever the window check on the caller's copy passes, every
store record of that region is set to `used_quota = 0`,
`last_reset = now`, regardless of the store's current `last_reset`
(records of other regions are untouched). -/
theorem reset_write_unconditional (now : Nat) (s : Store) (e : EndpointRecord)
    (h : shouldReset now (lastResetD e) = true) :
    ∀ r ∈ (reset_if_needed now s e).1,
      (r.region = e.region → r.used_quota = 0 ∧ r.last_reset = some now) ∧
      (r.region ≠ e.region → r ∈ s) := by
  rw [reset_if_needed, if_pos h]
  intro r hr
  rcases List.mem_map.mp hr with ⟨a, ha, rfl⟩
  by_cases hreg : a.region = e.region
  · rw [if_pos hreg]
    exact ⟨fun _ => ⟨rfl, rfl⟩, fun hne => absurd hreg hne⟩
  · rw [if_neg hreg]
    exact ⟨fun hyes => absurd hyes hreg, fun _ => ha⟩

theorem reset_write_unconditional_witness :
    (⟨"us-east-1", 10, 0, some 60, 7⟩ : EndpointRecord) ∈
      (reset_if_needed 60 [⟨"us-east-1", 10, 5, some 100, 7⟩]
        ⟨"us-east-1", 10, 5, some 0, 7⟩).1 ∧
    ((⟨"us-east-1", 10, 0, some 60, 7⟩ : EndpointRecord).used_quota = 0 ∧
      (⟨"us-east-1", 10, 0, some 60, 7⟩ : EndpointRecord).last_reset = some 60) :=
  ⟨by decide,
    (reset_write_unconditional 60 [⟨"us-east-1", 10, 5, some 100, 7⟩]
      ⟨"us-east-1", 10, 5, some 0, 7⟩ (by decide)
      ⟨"us-east-1", 10, 0, some 60, 7⟩ (by decide)).1 (by decide)⟩

/-- C6, counterexample: at `now = 60` with `last_reset = 0` the policy
applies, and the store record is written with `last_reset = 60`, yet the
in-memory copy keeps its stale `last_reset = 0`: only `used_quota` is
mirrored, so the in-memory copy does not match the state written to the
store. -/
theorem reset_inmemory_stale_cex :
    shouldReset 60 (lastResetD ⟨"us-east-1", 10, 5, some 0, 7⟩) = true ∧
    (reset_if_needed 60 [⟨"us-east-1", 10, 5, some 0, 7⟩]
        ⟨"us-east-1", 10, 5, some 0, 7⟩).1 =
      [⟨"us-east-1", 10, 0, some 60, 7⟩] ∧
    (reset_if_needed 60 [⟨"us-east-1", 10, 5, some 0, 7⟩]
        ⟨"us-east-1", 10, 5, some 0, 7⟩).2.last_reset = some 0 := by decide

/-- C6, amended: when the policy applies, the in-memory copy has its
`used_quota` zeroed before selection runs, but its `last_reset` is left
unchanged (stale); only the store record receives `last_reset = now`
together with `used_quota = 0`.  (Selection reads only
`total_quota - used_quota`, so the stale in-memory `last_reset` does not
affect the pass.) -/
theorem reset_inmemory_partial (now : Nat) (s : Store) (e : EndpointRecord)
    (h : shouldReset now (lastResetD e) = true) :
    (reset_if_needed now s e).2.used_quota = 0 ∧
    (reset_if_needed now s e).2.last_reset = e.last_reset ∧
    (reset_if_needed now s e).2.region = e.region ∧
    ∀ r ∈ s, r.region = e.region →
      { r with used_quota := 0, last_reset := some now } ∈ (reset_if_needed now s e).1 := by
  rw [reset_if_needed, if_pos h]
  refine ⟨rfl, rfl, rfl, ?_⟩
  intro r hr hreg
  rw [updateItemReset, List.mem_map]
  exact ⟨r, hr, by rw [if_pos hreg]⟩

theorem reset_inmemory_partial_witness :
    (reset_if_needed 60 [⟨"us-east-1", 10, 5, some 0, 7⟩]
        ⟨"us-east-1", 10, 5, some 0, 7⟩).2.used_quota = 0 ∧
    (reset_if_needed 60 [⟨"us-east-1", 10, 5, some 0, 7⟩]
        ⟨"us-east-1", 10, 5, some 0, 7⟩).2.last_reset =
      EndpointRecord.last_reset ⟨"us-east-1", 10, 5, some 0, 7⟩ ∧
    (reset_if_needed 60 [⟨"us-east-1", 10, 5, some 0, 7⟩]
        ⟨"us-east-1", 10, 5, some 0, 7⟩).2.region =
      EndpointRecord.region ⟨"us-east-1", 10, 5, some 0, 7⟩ ∧
    ∀ r ∈ [(⟨"us-east-1", 10, 5, some 0, 7⟩ : EndpointRecord)],
      r.region = EndpointRecord.region ⟨"us-east-1", 10, 5, some 0, 7⟩ →
        { r with used_quota := 0, last_reset := some 60 } ∈
          (reset_if_needed 60 [⟨"us-east-1", 10, 5, some 0, 7⟩]
            ⟨"us-east-1", 10, 5, some 0, 7⟩).1 :=
  reset_inmemory_partial 60 [⟨"us-east-1", 10, 5, some 0, 7⟩]
    ⟨"us-east-1", 10, 5, some 0, 7⟩ (by decide)

/-! ## Claim about state invariants -/

/-- C8: both store mutations preserve the state invariant, for the
single-call discipline in which the caller's copy agrees with the store
on `last_reset` (a fresh read, as in `lambda_handler`'s scan): after a
reset pass and after a usage increment every `used_quota` is still
non-negative, and no record's `last_reset` decreases (the reset writes
`now`, which the window check forces strictly above the old value; the
increment leaves `last_reset` untouched). -/
theorem core_ops_preserve_invariants (now : Nat) (s : Store)
    (e : EndpointRecord) (rg : String)
    (hInv : ∀ r ∈ s, 0 ≤ r.used_quota)
    (hFresh : ∀ r ∈ s, r.region = e.region → lastResetD r = lastResetD e) :
    (∀ r ∈ (reset_if_needed now s e).1, 0 ≤ r.used_quota) ∧
    ((reset_if_needed now s e).1.length = s.length ∧
      ∀ i (h1 : i < s.length) (h2 : i < (reset_if_needed now s e).1.length),
        lastResetD s[i] ≤ lastResetD ((reset_if_needed now s e).1[i])) ∧
    (∀ r ∈ update_quota s rg 1, 0 ≤ r.used_quota) ∧
    ((update_quota s rg 1).length = s.length ∧
      ∀ i (h1 : i < s.length) (h2 : i < (update_quota s rg 1).length),
        lastResetD s[i] = lastResetD ((update_quota s rg 1)[i])) := by
  refine ⟨?_, ⟨?_, ?_⟩, ?_, ⟨?_, ?_⟩⟩
  · intro r hr
    cases hsr : shouldReset now (lastResetD e) with
    | false =>
      rw [reset_if_needed] at hr
      simp only [hsr, Bool.false_eq_true, if_false] at hr
      exact hInv r hr
    | true =>
      rw [reset_if_needed] at hr
      simp only [hsr, if_true] at hr
      rcases List.mem_map.mp hr with ⟨a, ha, rfl⟩
      by_cases hreg : a.region = e.region
      · simp only [if_pos hreg]
        exact le_refl 0
      · simp only [if_neg hreg]
        exact hInv a ha
  · cases hsr : shouldReset now (lastResetD e) <;>
      simp [reset_if_needed, hsr, updateItemReset]
  · intro i h1 h2
    cases hsr : shouldReset now (lastResetD e) with
    | false => simp [reset_if_needed, hsr]
    | true =>
      have hnow : lastResetD e < now := lt_of_shouldReset hsr
      simp only [reset_if_needed, hsr, if_true, updateItemReset,
        List.getElem_map]
      by_cases hreg : s[i].region = e.region
      · have hfr := hFresh s[i] (List.getElem_mem h1) hreg
        simp only [if_pos hreg]
        simp only [lastResetD] at hfr hnow ⊢
        simp only [Option.getD_some]
        omega
      · simp [if_neg hreg]
  · intro r hr
    rcases List.mem_map.mp hr with ⟨a, ha, rfl⟩
    have := hInv a ha
    by_cases hreg : a.region = rg
    · simp only [if_pos hreg]
      omega
    · simp only [if_neg hreg]
      exact this
  · simp [update_quota]
  · intro i h1 h2
    simp only [update_quota, List.getElem_map]
    by_cases hreg : s[i].region = rg
    · simp [if_pos hreg, lastResetD]
    · simp [if_neg hreg]

theorem core_ops_preserve_invariants_witness :
    (reset_if_needed 60 [⟨"us-east-1", 10, 3, some 0, 5⟩]
        ⟨"us-east-1", 10, 3, some 0, 5⟩).1.length =
      [(⟨"us-east-1", 10, 3, some 0, 5⟩ : EndpointRecord)].length ∧
    ∀ r ∈ (reset_if_needed 60 [⟨"us-east-1", 10, 3, some 0, 5⟩]
        ⟨"us-east-1", 10, 3, some 0, 5⟩).1, 0 ≤ r.used_quota :=
  ⟨(core_ops_preserve_invariants 60 [⟨"us-east-1", 10, 3, some 0, 5⟩]
      ⟨"us-east-1", 10, 3, some 0, 5⟩ "us-east-1" (by decide) (by decide)).2.1.1,
    (core_ops_preserve_invariants 60 [⟨"us-east-1", 10, 3, some 0, 5⟩]
      ⟨"us-east-1", 10, 3, some 0, 5⟩ "us-east-1" (by decide) (by decide)).1⟩

/-! ## Selection: Python max semantics -/

/-- One comparison step of Python's `max` with the headroom key: the
running maximum is replaced only when the new element's key is strictly
greater. -/
def pickBest (best x : EndpointRecord) : EndpointRecord :=
  if headroom best < headroom x then x else best

lemma select_best_endpoint_cons (e : EndpointRecord) (es : List EndpointRecord) :
    select_best_endpoint (e :: es) = some (es.foldl pickBest e) := rfl

lemma foldl_pickBest_spec (es : List EndpointRecord) (e : EndpointRecord) :
    ∃ pre post,
      e :: es = pre ++ (es.foldl pickBest e) :: post ∧
      (∀ x ∈ e :: es, headroom x ≤ headroom (es.foldl pickBest e)) ∧
      (∀ x ∈ pre, headroom x < headroom (es.foldl pickBest e)) := by
  induction es generalizing e with
  | nil =>
    refine ⟨[], [], rfl, ?_, by simp⟩
    intro x hx
    rw [List.foldl_nil]
    rcases List.mem_singleton.mp hx with rfl
    exact le_refl _
  | cons b bs ih =>
    rw [List.foldl_cons]
    by_cases hb : headroom e < headroom b
    · rw [show pickBest e b = b from if_pos hb]
      obtain ⟨pre, post, hdec, hmax, hpre⟩ := ih b
      cases pre with
      | nil =>
        rw [List.nil_append] at hdec
        refine ⟨[e], post, ?_, ?_, ?_⟩
        · rw [List.cons_append, List.nil_append, ← hdec]
        · intro x hx
          rcases List.mem_cons.mp hx with rfl | hx
          · have hbr := hmax b (List.mem_cons_self b bs)
            omega
          · exact hmax x hx
        · intro x hx
          rw [List.mem_singleton] at hx
          subst hx
          have hbr := hmax b (List.mem_cons_self b bs)
          omega
      | cons q pre2 =>
        rw [List.cons_append] at hdec
        injection hdec with hqb htail
        subst hqb
        refine ⟨e :: b :: pre2, post, ?_, ?_, ?_⟩
        · rw [List.cons_append, List.cons_append, ← htail]
        · intro x hx
          rcases List.mem_cons.mp hx with rfl | hx
          · have := hmax b (List.mem_cons_self b bs)
            omega
          · exact hmax x hx
        · intro x hx
          rcases List.mem_cons.mp hx with rfl | hx
          · have := hpre b (List.mem_cons_self b pre2)
            omega
          · exact hpre x hx
    · rw [show pickBest e b = e from if_neg hb]
      obtain ⟨pre, post, hdec, hmax, hpre⟩ := ih e
      cases pre with
      | nil =>
        rw [List.nil_append] at hdec
        injection hdec with hre htail
        refine ⟨[], b :: post, ?_, ?_, by simp⟩
        · rw [List.nil_append, ← hre, htail]
        · intro x hx
          rcases List.mem_cons.mp hx with hxe | hx
          · rw [hxe]
            exact hmax e (List.mem_cons_self e bs)
          rcases List.mem_cons.mp hx with hxb | hx
          · have h1 := hmax e (List.mem_cons_self e bs)
            rw [hxb]
            omega
          · exact hmax x (List.mem_cons_of_mem e hx)
      | cons q pre2 =>
        rw [List.cons_append] at hdec
        injection hdec with hqe htail
        rw [← hqe] at hpre
        refine ⟨e :: b :: pre2, post, ?_, ?_, ?_⟩
        · rw [List.cons_append, List.cons_append, ← htail]
        · intro x hx
          rcases List.mem_cons.mp hx with hxe | hx
          · rw [hxe]
            exact hmax e (List.mem_cons_self e bs)
          rcases List.mem_cons.mp hx with hxb | hx
          · have h1 := hmax e (List.mem_cons_self e bs)
            rw [hxb]
            omega
          · exact hmax x (List.mem_cons_of_mem e hx)
        · intro x hx
          rcases List.mem_cons.mp hx with hxe | hx
          · rw [hxe]
            exact hpre e (List.mem_cons_self e pre2)
          rcases List.mem_cons.mp hx with hxb | hx
          · have h1 := hpre e (List.mem_cons_self e pre2)
            rw [hxb]
            omega
          · exact hpre x (List.mem_cons_of_mem e hx)

lemma select_mem {l : List EndpointRecord} {c : EndpointRecord}
    (h : select_best_endpoint l = some c) : c ∈ l := by
  cases l with
  | nil => simp [select_best_endpoint] at h
  | cons e es =>
    rw [select_best_endpoint_cons, Option.some.injEq] at h
    obtain ⟨pre, post, hdec, _, _⟩ := foldl_pickBest_spec es e
    subst h
    rw [hdec]
    exact List.mem_append.mpr (Or.inr (List.mem_cons_self _ _))

/-- C3: on any non-empty snapshot, `select_best_endpoint` returns an
element of the list maximizing headroom `total_quota - used_quota`;
every element strictly before it in input order has strictly smaller
headroom (ties go to the earliest), and nothing excludes depleted
endpoints — when all headrooms are `≤ 0` the first maximal one is still
returned rather than an error. -/
theorem select_max_first (l : List EndpointRecord) (h : l ≠ []) :
    ∃ c pre post, select_best_endpoint l = some c ∧
      l = pre ++ c :: post ∧
      (∀ x ∈ l, headroom x ≤ headroom c) ∧
      (∀ x ∈ pre, headroom x < headroom c) := by
  cases l with
  | nil => exact absurd rfl h
  | cons e es =>
    obtain ⟨pre, post, hdec, hmax, hpre⟩ := foldl_pickBest_spec es e
    exact ⟨_, pre, post, select_best_endpoint_cons e es, hdec, hmax, hpre⟩

theorem select_max_first_witness :
    ∃ c pre post,
      select_best_endpoint
          [⟨"us-east-1", 10, 10, some 0, 0⟩, ⟨"us-west-2", 10, 3, some 0, 0⟩] = some c ∧
      [(⟨"us-east-1", 10, 10, some 0, 0⟩ : EndpointRecord),
        ⟨"us-west-2", 10, 3, some 0, 0⟩] = pre ++ c :: post ∧
      (∀ x ∈ [(⟨"us-east-1", 10, 10, some 0, 0⟩ : EndpointRecord),
          ⟨"us-west-2", 10, 3, some 0, 0⟩], headroom x ≤ headroom c) ∧
      (∀ x ∈ pre, headroom x < headroom c) :=
  select_max_first
    [⟨"us-east-1", 10, 10, some 0, 0⟩, ⟨"us-west-2", 10, 3, some 0, 0⟩]
    (by decide)

/-! ## Shape of the reset pass and the handler paths -/

lemma resetLoop_nil (now : Nat) (s : Store) : resetLoop now s [] = (s, []) := rfl

lemma resetLoop_cons (now : Nat) (s : Store) (e : EndpointRecord)
    (es : List EndpointRecord) :
    resetLoop now s (e :: es) =
      ((resetLoop now (reset_if_needed now s e).1 es).1,
       (reset_if_needed now s e).2 ::
         (resetLoop now (reset_if_needed now s e).1 es).2) := rfl

lemma reset_if_needed_store_len (now : Nat) (s : Store) (e : EndpointRecord) :
    (reset_if_needed now s e).1.length = s.length := by
  cases hsr : shouldReset now (lastResetD e) <;>
    simp [reset_if_needed, hsr, updateItemReset]

lemma reset_if_needed_store_elem (now : Nat) (s : Store) (e : EndpointRecord)
    (i : Nat) (h1 : i < s.length) (h2 : i < (reset_if_needed now s e).1.length) :
    ((reset_if_needed now s e).1[i].region = s[i].region ∧
     (reset_if_needed now s e).1[i].total_quota = s[i].total_quota ∧
     (reset_if_needed now s e).1[i].request_count = s[i].request_count) ∧
    ((reset_if_needed now s e).1[i] = s[i] ∨
     ((reset_if_needed now s e).1[i].used_quota = 0 ∧
      (reset_if_needed now s e).1[i].last_reset = some now)) := by
  cases hsr : shouldReset now (lastResetD e) with
  | false => simp [reset_if_needed, hsr]
  | true =>
    simp only [reset_if_needed, hsr, if_true, updateItemReset, List.getElem_map]
    by_cases hreg : s[i].region = e.region
    · simp [if_pos hreg]
    · simp [if_neg hreg]

lemma resetLoop_len (now : Nat) (eps : List EndpointRecord) (s : Store) :
    (resetLoop now s eps).1.length = s.length ∧
    (resetLoop now s eps).2.length = eps.length := by
  induction eps generalizing s with
  | nil => simp [resetLoop_nil]
  | cons e es ih =>
    rw [resetLoop_cons]
    refine ⟨?_, ?_⟩
    · rw [(ih (reset_if_needed now s e).1).1, reset_if_needed_store_len]
    · simp [(ih (reset_if_needed now s e).1).2]

lemma resetLoop_store_elem (now : Nat) (eps : List EndpointRecord) (s : Store)
    (i : Nat) (h1 : i < s.length) (h2 : i < (resetLoop now s eps).1.length) :
    ((resetLoop now s eps).1[i].region = s[i].region ∧
     (resetLoop now s eps).1[i].total_quota = s[i].total_quota ∧
     (resetLoop now s eps).1[i].request_count = s[i].request_count) ∧
    ((resetLoop now s eps).1[i] = s[i] ∨
     ((resetLoop now s eps).1[i].used_quota = 0 ∧
      (resetLoop now s eps).1[i].last_reset = some now)) := by
  induction eps generalizing s with
  | nil => simp [resetLoop_nil]
  | cons e es ih =>
    have hlen1 : i < (reset_if_needed now s e).1.length := by
      rw [reset_if_needed_store_len]
      exact h1
    have h2x : i < (resetLoop now (reset_if_needed now s e).1 es).1.length := h2
    obtain ⟨⟨hreg1, htot1, hcnt1⟩, hd1⟩ := reset_if_needed_store_elem now s e i h1 hlen1
    obtain ⟨⟨hreg2, htot2, hcnt2⟩, hd2⟩ := ih (reset_if_needed now s e).1 hlen1 h2x
    show ((resetLoop now (reset_if_needed now s e).1 es).1[i].region = s[i].region ∧
        (resetLoop now (reset_if_needed now s e).1 es).1[i].total_quota = s[i].total_quota ∧
        (resetLoop now (reset_if_needed now s e).1 es).1[i].request_count = s[i].request_count) ∧
      ((resetLoop now (reset_if_needed now s e).1 es).1[i] = s[i] ∨
       ((resetLoop now (reset_if_needed now s e).1 es).1[i].used_quota = 0 ∧
        (resetLoop now (reset_if_needed now s e).1 es).1[i].last_reset = some now))
    refine ⟨⟨by rw [hreg2, hreg1], by rw [htot2, htot1], by rw [hcnt2, hcnt1]⟩, ?_⟩
    rcases hd2 with h | h
    · rcases hd1 with hx | hx
      · exact Or.inl (by rw [h, hx])
      · refine Or.inr ?_
        rw [h]
        exact hx
    · exact Or.inr h

lemma resetLoop_copy_region (now : Nat) (eps : List EndpointRecord) (s : Store)
    (i : Nat) (h1 : i < eps.length) (h2 : i < (resetLoop now s eps).2.length) :
    (resetLoop now s eps).2[i].region = eps[i].region := by
  induction eps generalizing s i with
  | nil => simp at h1
  | cons e es ih =>
    cases i with
    | zero =>
      show (reset_if_needed now s e).2.region = e.region
      cases hsr : shouldReset now (lastResetD e) <;>
        simp [reset_if_needed, hsr]
    | succ j =>
      have h1j : j < es.length := by simpa using h1
      have h2j : j < (resetLoop now (reset_if_needed now s e).1 es).2.length := by
        rw [(resetLoop_len now es (reset_if_needed now s e).1).2]
        exact h1j
      show (resetLoop now (reset_if_needed now s e).1 es).2[j].region = es[j].region
      exact ih (reset_if_needed now s e).1 j h1j h2j

lemma isEmpty_false_of_ne_nil {l : List EndpointRecord} (h : l ≠ []) :
    l.isEmpty = false := by
  cases l with
  | nil => exact absurd rfl h
  | cons a as => rfl

lemma select_some_of_ne_nil {l : List EndpointRecord} (h : l ≠ []) :
    ∃ c, select_best_endpoint l = some c := by
  cases l with
  | nil => exact absurd rfl h
  | cons e es => exact ⟨_, select_best_endpoint_cons e es⟩

lemma lambda_handler_paths (p : String) (now : Nat) (ok : Bool) (s : Store)
    (hp : p ≠ "") (hne : s ≠ []) :
    ∃ c, select_best_endpoint (resetLoop now s s).2 = some c ∧
      lambda_handler (.withPrompt (some p)) now ok s =
        (if ok then
          (⟨200, c.region⟩, update_quota (resetLoop now s s).1 c.region 1)
         else
          (⟨500, "Bedrock invocation failed"⟩, (resetLoop now s s).1)) := by
  have hne2 : (resetLoop now s s).2 ≠ [] := by
    intro hnil
    have := (resetLoop_len now s s).2
    rw [hnil] at this
    exact hne (List.length_eq_zero.mp this.symm)
  obtain ⟨c, hc⟩ := select_some_of_ne_nil hne2
  refine ⟨c, hc, ?_⟩
  simp only [lambda_handler, Option.getD_some, if_neg hp,
    isEmpty_false_of_ne_nil hne, Bool.false_eq_true, if_false, hc]

/-! ## Claim about charging and downstream failure -/

/-- C1, counterexample: a reservation whose downstream Bedrock call fails
leaves the chosen endpoint's counters untouched — `used_quota` stays 3
and `request_count` stays 5 — because `update_quota` runs only after a
successful invocation; nothing is charged before the call, so no
increment is retained on failure. -/
theorem charge_before_call_cex :
    lambda_handler (.withPrompt (some "hi")) 30 false
        [⟨"us-east-1", 10, 3, some 30, 5⟩] =
      (⟨500, "Bedrock invocation failed"⟩, [⟨"us-east-1", 10, 3, some 30, 5⟩]) := by
  decide

/-- C1, amended: usage is charged only after the downstream call
succeeds.  When the downstream call fails, the handler returns the
invocation failure and the store keeps only the reset-pass effects:
every endpoint's `request_count` is unchanged and its `used_quota` is
either unchanged or zeroed by a window reset — never incremented. -/
theorem no_charge_on_downstream_failure (p : String) (now : Nat) (s : Store)
    (hp : p ≠ "") (hne : s ≠ []) :
    (lambda_handler (.withPrompt (some p)) now false s).1 =
      ⟨500, "Bedrock invocation failed"⟩ ∧
    (lambda_handler (.withPrompt (some p)) now false s).2.length = s.length ∧
    ∀ i (h1 : i < s.length)
      (h2 : i < (lambda_handler (.withPrompt (some p)) now false s).2.length),
      (lambda_handler (.withPrompt (some p)) now false s).2[i].request_count =
        s[i].request_count ∧
      ((lambda_handler (.withPrompt (some p)) now false s).2[i].used_quota =
          s[i].used_quota ∨
        (lambda_handler (.withPrompt (some p)) now false s).2[i].used_quota = 0) := by
  obtain ⟨c, hc, hout⟩ := lambda_handler_paths p now false s hp hne
  simp only [Bool.false_eq_true, if_false] at hout
  have hstore : (lambda_handler (.withPrompt (some p)) now false s).2 =
      (resetLoop now s s).1 := by rw [hout]
  have hlen : (resetLoop now s s).1.length = s.length := (resetLoop_len now s s).1
  refine ⟨by rw [hout], by rw [hstore, hlen], ?_⟩
  intro i h1 h2
  have h2x : i < (resetLoop now s s).1.length := by
    rw [hlen]
    exact h1
  obtain ⟨⟨hreg, htot, hcnt⟩, hd⟩ := resetLoop_store_elem now s s i h1 h2x
  simp only [hstore]
  refine ⟨hcnt, ?_⟩
  rcases hd with h | h
  · exact Or.inl (by rw [h])
  · exact Or.inr h.1

theorem no_charge_on_downstream_failure_witness :
    (lambda_handler (.withPrompt (some "hi")) 30 false
        [⟨"us-east-1", 10, 3, some 30, 5⟩]).1 =
      ⟨500, "Bedrock invocation failed"⟩ ∧
    (lambda_handler (.withPrompt (some "hi")) 30 false
        [⟨"us-east-1", 10, 3, some 30, 5⟩]).2.length =
      [(⟨"us-east-1", 10, 3, some 30, 5⟩ : EndpointRecord)].length ∧
    ∀ i (h1 : i < [(⟨"us-east-1", 10, 3, some 30, 5⟩ : EndpointRecord)].length)
      (h2 : i < (lambda_handler (.withPrompt (some "hi")) 30 false
        [⟨"us-east-1", 10, 3, some 30, 5⟩]).2.length),
      (lambda_handler (.withPrompt (some "hi")) 30 false
          [⟨"us-east-1", 10, 3, some 30, 5⟩]).2[i].request_count =
        [(⟨"us-east-1", 10, 3, some 30, 5⟩ : EndpointRecord)][i].request_count ∧
      ((lambda_handler (.withPrompt (some "hi")) 30 false
            [⟨"us-east-1", 10, 3, some 30, 5⟩]).2[i].used_quota =
          [(⟨"us-east-1", 10, 3, some 30, 5⟩ : EndpointRecord)][i].used_quota ∨
        (lambda_handler (.withPrompt (some "hi")) 30 false
            [⟨"us-east-1", 10, 3, some 30, 5⟩]).2[i].used_quota = 0) :=
  no_charge_on_downstream_failure "hi" 30 [⟨"us-east-1", 10, 3, some 30, 5⟩]
    (by decide) (by decide)

/-! ## Claim about the success-path accounting -/

/-- C5: on the success path with distinct region keys, the handler
returns 200 naming the reserved region `s[j].region` for some index `j`,
and relative to the post-reset state exactly that one record gained
exactly 1 on `used_quota` and exactly 1 on `request_count`, every other
record being passed through unchanged; the post-reset state itself
differs from the input only by window resets, which never touch
`request_count`. -/
theorem reserve_increments_exactly_one (p : String) (now : Nat) (s : Store)
    (hp : p ≠ "") (hne : s ≠ [])
    (hnd : (s.map EndpointRecord.region).Nodup) :
    (lambda_handler (.withPrompt (some p)) now true s).1.statusCode = 200 ∧
    (lambda_handler (.withPrompt (some p)) now true s).2.length = s.length ∧
    ∃ j, ∃ hj : j < s.length,
      (lambda_handler (.withPrompt (some p)) now true s).1.body = s[j].region ∧
      ∀ i (h1 : i < s.length)
        (h2 : i < (lambda_handler (.withPrompt (some p)) now true s).2.length)
        (h3 : i < (resetLoop now s s).1.length),
        ((resetLoop now s s).1[i].request_count = s[i].request_count ∧
         ((resetLoop now s s).1[i] = s[i] ∨
          ((resetLoop now s s).1[i].used_quota = 0 ∧
           (resetLoop now s s).1[i].last_reset = some now))) ∧
        (i = j →
          (lambda_handler (.withPrompt (some p)) now true s).2[i].used_quota =
            (resetLoop now s s).1[i].used_quota + 1 ∧
          (lambda_handler (.withPrompt (some p)) now true s).2[i].request_count =
            (resetLoop now s s).1[i].request_count + 1) ∧
        (i ≠ j →
          (lambda_handler (.withPrompt (some p)) now true s).2[i] =
            (resetLoop now s s).1[i]) := by
  obtain ⟨c, hc, hout⟩ := lambda_handler_paths p now true s hp hne
  rw [if_pos rfl] at hout
  have hstore : (lambda_handler (.withPrompt (some p)) now true s).2 =
      update_quota (resetLoop now s s).1 c.region 1 := by rw [hout]
  have hresp : (lambda_handler (.withPrompt (some p)) now true s).1 =
      ⟨200, c.region⟩ := by rw [hout]
  have hlenr : (resetLoop now s s).1.length = s.length := (resetLoop_len now s s).1
  have hlenu : (update_quota (resetLoop now s s).1 c.region 1).length =
      (resetLoop now s s).1.length := List.length_map _ _
  obtain ⟨j, hj2, hcj⟩ := List.mem_iff_getElem.mp (select_mem hc)
  have hlen2 : (resetLoop now s s).2.length = s.length := (resetLoop_len now s s).2
  have hj : j < s.length := by rw [← hlen2]; exact hj2
  have hcreg : c.region = s[j].region := by
    rw [← hcj]
    exact resetLoop_copy_region now s s j hj hj2
  refine ⟨by rw [hresp], by rw [hstore, hlenu, hlenr], j, hj,
    by rw [hresp, hcreg], ?_⟩
  intro i h1 h2 h3
  obtain ⟨⟨hreg, htot, hcnt⟩, hd⟩ := resetLoop_store_elem now s s i h1 h3
  refine ⟨⟨hcnt, hd⟩, ?_, ?_⟩
  · intro hij
    subst hij
    have hregi : (resetLoop now s s).1[i].region = c.region := by
      rw [hreg, hcreg]
    simp [hstore, update_quota, List.getElem_map, if_pos hregi]
  · intro hij
    have hregi : (resetLoop now s s).1[i].region ≠ c.region := by
      rw [hreg, hcreg]
      intro hcon
      apply hij
      have hb1 : i < (s.map EndpointRecord.region).length := by
        rw [List.length_map]
        exact h1
      have hb2 : j < (s.map EndpointRecord.region).length := by
        rw [List.length_map]
        exact hj
      have hmeq : (s.map EndpointRecord.region)[i] =
          (s.map EndpointRecord.region)[j] := by
        rw [List.getElem_map, List.getElem_map]
        exact hcon
      exact hnd.getElem_inj_iff.mp hmeq
    simp only [hstore, update_quota, List.getElem_map, if_neg hregi]

theorem reserve_increments_exactly_one_witness :
    (lambda_handler (.withPrompt (some "hi")) 0 true
        [⟨"us-east-1", 10, 10, some 0, 5⟩,
         ⟨"us-west-2", 10, 3, some 0, 6⟩]).1.statusCode = 200 :=
  (reserve_increments_exactly_one "hi" 0
    [⟨"us-east-1", 10, 10, some 0, 5⟩, ⟨"us-west-2", 10, 3, some 0, 6⟩]
    (by decide) (by decide) (by decide)).1
